import Mathlib

/-
Shallow embedding of the animation core of the scratch-card repository
(src/classes.js, canonical revision: the one defining SandStream and
FallParabolicAnimation).

Modelling conventions:
* JS numbers are modelled as rationals (ℚ); all values appearing in the
  claims are exactly representable, so double rounding never matters.
* `Math.random()` is modelled as an explicit stream of draws (`RandStream`)
  threaded through every computation that consumes randomness; each call
  to the host RNG consumes the next element of the stream.
* Timestamps (`new Date().getTime()`, ms since epoch) are integers (ℤ).
* JS `undefined` — produced in this code base only by reading the missing
  property `this.operandOne` in BottomLimitNumber.computeValue — is
  modelled as `Option.none`.
-/

namespace ScratchCard

/-- State of the `Math.random()` host RNG: an infinite stream of draws
(each a real Math.random() output lies in [0,1)) together with the index
of the next draw to be consumed. -/
structure RandStream where
  draws : Nat → ℚ
  idx : Nat

/-- One call to `Math.random()`: returns the next draw and advances the
stream. -/
def nextDraw (s : RandStream) : ℚ × RandStream :=
  (s.draws s.idx, ⟨s.draws, s.idx + 1⟩)

/-- Fields of `class BinaryOperation extends PrimitiveAware`: the
constructor runs `this._operandOne = Number(operandOne);
this._operandTwo = Number(operandTwo);`, so after construction both
operands are plain numbers. -/
structure BinaryOperationState where
  operandOne : ℚ
  operandTwo : ℚ
deriving DecidableEq

/-- `RandomNumber.computeValue()` — `return this._operandOne +
Math.random() * this._operandTwo;`.  Each call consumes a fresh draw
from the host RNG. -/
def randomComputeValue (n : BinaryOperationState) (s : RandStream) : ℚ × RandStream :=
  let d := nextDraw s
  (n.operandOne + d.1 * n.operandTwo, d.2)

/-- Evaluating `RandomNumber.of(a, b)` once to a number via `Number(...)`
(→ `valueOf` → `computeValue`): `a + Math.random() * b`, consuming one
draw.  Operands a, b are already plain numbers (coerced in the
BinaryOperation constructor at the node's own construction). -/
def randomNumberValue (a b : ℚ) (s : RandStream) : ℚ × RandStream :=
  randomComputeValue ⟨a, b⟩ s

/-- An operand handed to a BinaryOperation constructor: either a plain
number or a not-yet-coerced `RandomNumber.of(a, b)` node (its own two
operands already plain, having been coerced when it was constructed). -/
inductive NumOperand where
  | num (q : ℚ)
  | randNode (a b : ℚ)
deriving DecidableEq

/-- `Number(x)` coercion as performed by the BinaryOperation constructor:
a plain number is unchanged; a RandomNumber node is evaluated through
`valueOf`, consuming exactly one draw. -/
def toNumber : NumOperand → RandStream → ℚ × RandStream
  | NumOperand.num q, s => (q, s)
  | NumOperand.randNode a b, s => randomNumberValue a b s

/-- How many host-RNG draws coercing this operand performs. -/
def drawCount : NumOperand → Nat
  | NumOperand.num _ => 0
  | NumOperand.randNode _ _ => 1

/-- The `BinaryOperation` constructor (shared by Sum, Mul, Division,
RandomNumber and BottomLimitNumber): coerces both operands to plain
numbers, left operand first. -/
def mkBinaryOperation (x y : NumOperand) (s : RandStream) :
    BinaryOperationState × RandStream :=
  let o1 := toNumber x s
  let o2 := toNumber y o1.2
  (⟨o1.1, o2.1⟩, o2.2)

/-- `Sum.computeValue()` — `return this._operandOne + this._operandTwo;`
(pure: reads only the stored plain numbers). -/
def sumComputeValue (n : BinaryOperationState) : ℚ :=
  n.operandOne + n.operandTwo

/-- Reading a constructed Sum node as a number (`valueOf` →
`computeValue`), with the RNG state threaded through to show that the
read consumes no randomness. -/
def sumValueOf (n : BinaryOperationState) (s : RandStream) : ℚ × RandStream :=
  (sumComputeValue n, s)

/-- `BottomLimitNumber.computeValue()` — `return this._operandTwo <
this._operandOne ? this.operandOne : this._operandTwo;`.  The true
branch reads `this.operandOne` (no underscore), a property that does not
exist, i.e. JS `undefined`, modelled as `none`. -/
def bottomLimitComputeValue (n : BinaryOperationState) : Option ℚ :=
  if n.operandTwo < n.operandOne then none else some n.operandTwo

/-- Position state of `class CanvasObject` (fields `_top`, `_left`). -/
structure CanvasObj where
  top : ℚ
  left : ℚ
deriving DecidableEq

/-- `CanvasObject.move(newTopFn, newLeftFn)` — the source runs
`this._top = newTopFn(this._top, this._left);` and THEN
`this._left = newLeftFn(this._left, this._top);`, so the top passed to
`newLeftFn` is the already-updated top.  The source returns `this`; the
model returns the updated object. -/
def move (o : CanvasObj) (newTopFn : ℚ → ℚ → ℚ) (newLeftFn : ℚ → ℚ → ℚ) :
    CanvasObj :=
  let top := newTopFn o.top o.left
  let left := newLeftFn o.left top
  ⟨top, left⟩

/-- `Scene.addObject(object)` — `this.#canvasObjects.set(object, object)`.
The Scene's collection is a JS Map keyed by object identity: setting a
key already present keeps its original position and leaves the key set
unchanged; a new key is appended in insertion order.  Objects are
identified by ids of type α. -/
def addObject {α : Type} [DecidableEq α] (scene : List α) (o : α) : List α :=
  if o ∈ scene then scene else scene ++ [o]

/-- `Scene.removeObject(object)` — `this.#canvasObjects.delete(object)`:
removes the entry for this key if present (keys are unique in a Map), a
silent no-op otherwise; the relative order of the rest is kept. -/
def removeObject {α : Type} [DecidableEq α] (scene : List α) (o : α) : List α :=
  scene.filter (fun x => x ≠ o)

/-- Observable effects of one `Scene.render()` pass on the drawing
context: the single `clearRect` of the whole surface, then one `draw`
per object rendered. -/
inductive SceneEvent (α : Type) where
  | clear
  | draw (o : α)
deriving DecidableEq

/-- `Scene.render()` in a pass during which no object's render mutates
the collection (the claims' assumption): clears the surface once, then
iterates the Map — whose iterator yields entries in insertion order —
rendering each object, and returns `this` (the scene unchanged). -/
def sceneRender {α : Type} (scene : List α) : List (SceneEvent α) × List α :=
  (SceneEvent.clear :: scene.map SceneEvent.draw, scene)

/-- Mutable state of `class RemoveAfterDelay`: the `#firstRenderTime`
field (undefined until the first render, modelled as `none`) and the
configured `#removeDelay`. -/
structure RemoveAfterDelayState where
  firstRenderTime : Option ℤ
  removeDelay : ℤ
deriving DecidableEq

/-- What one `RemoveAfterDelay.render` call did: delegated to the wrapped
target, or called `removeObject` on the target and then on itself. -/
inductive RADEvent where
  | renderTarget
  | removeBoth
deriving DecidableEq

/-- The guard `if (!this.#firstRenderTime) this.#firstRenderTime = now`:
the stored value is overwritten when it is JS-falsy, i.e. undefined
(`none`) or the number 0. -/
def radFirst (prev : Option ℤ) (now : ℤ) : ℤ :=
  match prev with
  | none => now
  | some t => if t = 0 then now else t

/-- `RemoveAfterDelay.render(canvas)` at wall-clock time `now`: captures
the first-render time, then delegates to the target while
`now - firstRenderTime < removeDelay`, and otherwise removes the target
and itself from the scene (reported as the event; the scene update is
applied by `radTick`). -/
def radRender (st : RemoveAfterDelayState) (now : ℤ) :
    RemoveAfterDelayState × RADEvent :=
  let first := radFirst st.firstRenderTime now
  if now - first < st.removeDelay then (⟨some first, st.removeDelay⟩, RADEvent.renderTarget)
  else (⟨some first, st.removeDelay⟩, RADEvent.removeBoth)

/-- A run of one RemoveAfterDelay wrapper inside its owning Scene: the
scene's live-object ids and the wrapper's state. -/
structure RADRun where
  scene : List Nat
  rad : RemoveAfterDelayState
deriving DecidableEq

/-- One Scene render pass, restricted to its effect on the wrapper `w`
wrapping target `tg`: the wrapper's render runs iff `w` is currently in
the scene; when the delay has expired it performs
`scene.removeObject(target); scene.removeObject(this)` in that order. -/
def radTick (w tg : Nat) (st : RADRun) (now : ℤ) : RADRun × Option RADEvent :=
  if w ∈ st.scene then
    match radRender st.rad now with
    | (rad1, RADEvent.renderTarget) => (⟨st.scene, rad1⟩, some RADEvent.renderTarget)
    | (rad1, RADEvent.removeBoth) =>
        (⟨removeObject (removeObject st.scene tg) w, rad1⟩, some RADEvent.removeBoth)
  else (st, none)

/-- The whole run: one tick per wall-clock timestamp, collecting per-tick
events (`none` = the wrapper was no longer in the scene, so it was not
rendered at all). -/
def radRun (w tg : Nat) (st : RADRun) : List ℤ → List (Option RADEvent)
  | [] => []
  | t :: ts =>
      let step := radTick w tg st t
      step.2 :: radRun w tg step.1 ts

/-- The trace the RemoveAfterDelay lifecycle should produce once the
first-render time is pinned at `t0`: delegate while the elapsed time is
below the delay, then remove both exactly once, then nothing ever
again. -/
def radExpected (d t0 : ℤ) : List ℤ → List (Option RADEvent)
  | [] => []
  | t :: ts =>
      if t - t0 < d then some RADEvent.renderTarget :: radExpected d t0 ts
      else some RADEvent.removeBoth :: ts.map (fun _ => none)

/-- State of `class FallParabolicAnimation`: the wrapped target's
position, the top recorded at wrap time (`#initialTop`), plus the
configuration (`#parabolicConstant`, `#distancePerTick`) and the owning
ticker's `delayMs()`. -/
structure ParabolicState where
  target : CanvasObj
  initialTop : ℚ
  parabolicConstant : ℚ
  distancePerTick : ℚ
  tickerDelayMs : ℚ
deriving DecidableEq

/-- `FallParabolicAnimation.render(canvas)`: moves the target with
`(top) => top + nextStep` and `(left, top) => left +
parabolicConstant*2 / (top - initialTop)` where
`nextStep = tickerDelayMs / distancePerTick`, then delegates render to
the target. -/
def parabolicRender (s : ParabolicState) : ParabolicState :=
  let nextStep := s.tickerDelayMs / s.distancePerTick
  let target := move s.target
    (fun top _ => top + nextStep)
    (fun left top => left + s.parabolicConstant * 2 / (top - s.initialTop))
  ⟨target, s.initialTop, s.parabolicConstant, s.distancePerTick, s.tickerDelayMs⟩

/-- State of `class FallAnimation`: the wrapped target's position, the
configured `#distancePerTick` and the owning ticker's `delayMs()`. -/
structure FallAnimationState where
  target : CanvasObj
  tickerDelayMs : ℚ
  distancePerTick : ℚ
deriving DecidableEq

/-- `FallAnimation.render(canvas)`: moves the target with
`(top) => top + tickerDelayMs / distancePerTick` and `(left) => left`,
then delegates render to the target; the Boolean records that the render
was delegated. -/
def fallRender (s : FallAnimationState) : FallAnimationState × Bool :=
  let tickerDelayMs := s.tickerDelayMs
  let target := move s.target
    (fun top _ => top + tickerDelayMs / s.distancePerTick)
    (fun left _ => left)
  (⟨target, s.tickerDelayMs, s.distancePerTick⟩, true)

/-- `Range.of(a, b).array()` — `for (let i = from; i <= to; i++)
result.push(i)`. -/
def rangeArray (a b : ℤ) : List ℤ :=
  (List.range (b + 1 - a).toNat).map (fun (i : ℕ) => a + (i : ℤ))

/-- The delay-building loop of `SandStream.render(parts, partsDelay,
speedRange)`: over `Range.of(1, parts).array()`, each iteration builds
`Sum.of(nextDelay, RandomNumber.of(0, partsDelay))` — whose constructor
coerces the RandomNumber operand, consuming one draw — and then does
`nextDelay += partsDelay`.  Returns each Sum node's (fixed) value. -/
def sandStreamDelaysAux (partsDelay : ℚ) :
    List ℤ → ℚ → RandStream → List ℚ
  | [], _, _ => []
  | _ :: rest, nextDelay, s =>
      let rv := randomNumberValue 0 partsDelay s
      (nextDelay + rv.1) :: sandStreamDelaysAux partsDelay rest (nextDelay + partsDelay) rv.2

/-- The delays actually handed to the timers: each Sum node is wrapped in
`Mul.of(delay, 10)`, coerced to a number when `setTimeout` receives it,
i.e. the delay value times 10. -/
def sandStreamScheduledDelays (parts : ℤ) (partsDelay : ℚ) (s : RandStream) :
    List ℚ :=
  (sandStreamDelaysAux partsDelay (rangeArray 1 parts) 0 s).map (fun d => d * 10)

/-- C1.  The claim says BottomLimitNumber(limit, value) returns value if
value ≥ limit and limit otherwise.  The code is wrong on the second
branch: the typo `this.operandOne` (missing underscore) reads a missing
property, so the call returns JS `undefined` (`none`) instead of the
limit.  This theorem evaluates the code at the failing input
limit = 5, value = 3 (constructor stores operandOne = limit,
operandTwo = value) and proves the other branch behaves as claimed. -/
theorem bottomLimitNumber_limit_branch_returns_undefined :
    bottomLimitComputeValue ⟨5, 3⟩ = none ∧
    bottomLimitComputeValue ⟨5, 3⟩ ≠ some 5 ∧
    ∀ limit value : ℚ, limit ≤ value →
      bottomLimitComputeValue ⟨limit, value⟩ = some value := by
  refine ⟨by norm_num [bottomLimitComputeValue], by simp [bottomLimitComputeValue], ?_⟩
  intro limit value h
  simp [bottomLimitComputeValue, not_lt.mpr h]

/-- Witness for C1's theorem at concrete inputs. -/
theorem bottomLimitNumber_limit_branch_returns_undefined_witness :
    bottomLimitComputeValue ⟨5, 3⟩ = none ∧
    bottomLimitComputeValue ⟨2, 7⟩ = some 7 :=
  ⟨bottomLimitNumber_limit_branch_returns_undefined.1,
   bottomLimitNumber_limit_branch_returns_undefined.2.2 2 7 (by norm_num)⟩

/-- C2 counterexample.  The claim says evaluating the same
random-in-range node twice yields the identical value.  With the node
RandomNumber.of(0, 10) and a host RNG whose first two draws are 0 and
1/2 (both legitimate Math.random() outputs in [0,1)), the first
evaluation yields 0 and the second yields 5. -/
theorem randomNumber_second_evaluation_differs :
    (randomComputeValue ⟨0, 10⟩ ⟨fun i => if i = 0 then 0 else 1/2, 0⟩).1 ≠
      (randomComputeValue ⟨0, 10⟩
        (randomComputeValue ⟨0, 10⟩ ⟨fun i => if i = 0 then 0 else 1/2, 0⟩).2).1 := by
  norm_num [randomComputeValue, nextDraw]

/-- C2 amended: `RandomNumber.computeValue` calls `Math.random()` afresh
on every evaluation, so the first and second evaluations of the same
node return `a + r_i*b` and `a + r_(i+1)*b` for consecutive RNG draws
(and hence coincide only when those scaled draws coincide); each
evaluation advances the RNG by exactly one draw. -/
theorem randomNumber_reevaluation_redraws (a b : ℚ) (s : RandStream) :
    (randomComputeValue ⟨a, b⟩ s).1 = a + s.draws s.idx * b ∧
    (randomComputeValue ⟨a, b⟩ (randomComputeValue ⟨a, b⟩ s).2).1 =
      a + s.draws (s.idx + 1) * b ∧
    ((randomComputeValue ⟨a, b⟩ s).2).idx = s.idx + 1 := by
  refine ⟨rfl, rfl, rfl⟩

/-- C3 counterexample.  The claim says `move(topFn, leftFn)` passes the
PRE-update top to leftFn.  With top = left = 0, topFn(top) = top + 1 and
leftFn(left, top) = top, the claim predicts the new left is 0 (the old
top); the code updates `_top` first and passes the updated value, so the
new left is 1. -/
theorem move_passes_updated_top :
    (move ⟨0, 0⟩ (fun top _ => top + 1) (fun _ top => top)).left ≠
      (fun (_ top : ℚ) => top) (0 : ℚ) (0 : ℚ) := by
  norm_num [move]

/-- C3 amended: `move(topFn, leftFn)` sets top to topFn(top, left), then
sets left to leftFn(left, newTop) where the top argument passed to
leftFn is the POST-update top, and returns the (same, now-updated)
object. -/
theorem move_updates_top_then_left (o : CanvasObj)
    (newTopFn newLeftFn : ℚ → ℚ → ℚ) :
    move o newTopFn newLeftFn =
      ⟨newTopFn o.top o.left, newLeftFn o.left (newTopFn o.top o.left)⟩ :=
  rfl

/-- C4 counterexample.  The claim says that on the first render after
wrap (target's top still equal to `#initialTop`) the drift division's
denominator `currentTop - initialTop` is zero, making the horizontal
offset non-finite.  In the code, `move` updates top BEFORE the left
update runs, so the left callback receives `initialTop + nextStep`.
Concretely, wrapping a target at (0,0) with parabolicConstant = 10,
distancePerTick = 16 and ticker delay 16 ms, the first render divides by
1, and produces the finite position (1, 20). -/
theorem parabolic_first_render_divides_by_nextStep :
    (parabolicRender ⟨⟨0, 0⟩, 0, 10, 16, 16⟩).target = ⟨1, 20⟩ ∧
    ((0 : ℚ) + 16 / 16) - 0 = 1 ∧ (1 : ℚ) ≠ 0 := by
  refine ⟨?_, by norm_num, by norm_num⟩
  norm_num [parabolicRender, move, CanvasObj.mk.injEq]

/-- C4 amended: on the first render after wrap (target.top = initialTop)
the denominator received by the drift division equals
`nextStep = tickerDelayMs / distancePerTick` (because `move` passes the
post-update top), which is nonzero whenever tickerDelayMs and
distancePerTick are nonzero, and the horizontal offset is the finite
value `parabolicConstant * 2 / nextStep`. -/
theorem parabolic_first_render_denominator (s : ParabolicState)
    (hfirst : s.target.top = s.initialTop)
    (hdelay : s.tickerDelayMs ≠ 0) (hdist : s.distancePerTick ≠ 0) :
    (parabolicRender s).target.top - s.initialTop =
      s.tickerDelayMs / s.distancePerTick ∧
    s.tickerDelayMs / s.distancePerTick ≠ 0 ∧
    (parabolicRender s).target.left =
      s.target.left +
        s.parabolicConstant * 2 / (s.tickerDelayMs / s.distancePerTick) := by
  have hstep : s.tickerDelayMs / s.distancePerTick ≠ 0 := div_ne_zero hdelay hdist
  refine ⟨?_, hstep, ?_⟩ <;> simp [parabolicRender, move, hfirst]

/-- Witness for C4's amended theorem at a concrete first render. -/
theorem parabolic_first_render_denominator_witness :
    (parabolicRender ⟨⟨5, 3⟩, 5, 10, 16, 16⟩).target.top - 5 = 16 / 16 ∧
    (16 : ℚ) / 16 ≠ 0 ∧
    (parabolicRender ⟨⟨5, 3⟩, 5, 10, 16, 16⟩).target.left = 3 + 10 * 2 / (16 / 16) :=
  parabolic_first_render_denominator ⟨⟨5, 3⟩, 5, 10, 16, 16⟩ rfl
    (by norm_num) (by norm_num)

/-- C5: the Scene holds each object at most once — adding an object
already present leaves the collection unchanged (JS Map.set on an
existing key), removing an absent object leaves it unchanged (Map.delete
is a silent no-op, the model is a total function so nothing fails), and
both operations preserve uniqueness of entries. -/
theorem scene_add_remove_idempotent (scene : List Nat) (o : Nat) :
    (o ∈ scene → addObject scene o = scene) ∧
    (o ∉ scene → removeObject scene o = scene) ∧
    (scene.Nodup → (addObject scene o).Nodup ∧ (removeObject scene o).Nodup) := by
  refine ⟨fun h => by simp [addObject, h], fun h => ?_, fun h => ⟨?_, h.filter _⟩⟩
  · rw [removeObject, List.filter_eq_self]
    intro a ha
    simp only [ne_eq, decide_eq_true_eq]
    exact fun hao => h (hao ▸ ha)
  · by_cases hmem : o ∈ scene
    · simpa [addObject, hmem] using h
    · rw [addObject, if_neg hmem]
      simpa [List.nodup_append] using ⟨h, fun hm => hmem hm⟩

/-- Witness for C5's theorem at a concrete scene. -/
theorem scene_add_remove_idempotent_witness :
    addObject [1, 2] 1 = [1, 2] ∧ removeObject [1, 2] 3 = [1, 2] :=
  ⟨(scene_add_remove_idempotent [1, 2] 1).1 (by decide),
   (scene_add_remove_idempotent [1, 2] 3).2.1 (by decide)⟩

/-- C6: a Scene built by adding distinct objects A, B, C in that order
holds exactly [A, B, C]; `render()` emits exactly one full-surface clear
before any draw, then draws A, B, C in insertion order, and returns the
Scene itself. -/
theorem scene_render_insertion_order (A B C : Nat)
    (hab : A ≠ B) (hac : A ≠ C) (hbc : B ≠ C) :
    addObject (addObject (addObject ([] : List Nat) A) B) C = [A, B, C] ∧
    sceneRender [A, B, C] =
      ([SceneEvent.clear, SceneEvent.draw A, SceneEvent.draw B, SceneEvent.draw C],
        [A, B, C]) := by
  constructor
  · simp [addObject, hab.symm, hac.symm, hbc.symm]
  · rfl

/-- Witness for C6's theorem at a concrete scene. -/
theorem scene_render_insertion_order_witness :
    addObject (addObject (addObject ([] : List Nat) 10) 20) 30 = [10, 20, 30] ∧
    sceneRender [10, 20, 30] =
      ([SceneEvent.clear, SceneEvent.draw 10, SceneEvent.draw 20, SceneEvent.draw 30],
        [10, 20, 30]) :=
  scene_render_insertion_order 10 20 30 (by decide) (by decide) (by decide)

/-- C8: each `FallAnimation.render` advances the target's top by exactly
`tickerDelayMs / distancePerTick`, leaves its left unchanged, and
delegates the render to the target; in particular with ticker delay 16 ms
the advance is 1 for distancePerTick = 16 and 2 for
distancePerTick = 8. -/
theorem fallAnimation_vertical_rate (s : FallAnimationState)
    (hdist : s.distancePerTick ≠ 0) :
    ((fallRender s).1.target.top =
        s.target.top + s.tickerDelayMs / s.distancePerTick ∧
      (fallRender s).1.target.left = s.target.left ∧
      (fallRender s).2 = true) ∧
    (∀ t : CanvasObj, (fallRender ⟨t, 16, 16⟩).1.target.top = t.top + 1) ∧
    (∀ t : CanvasObj, (fallRender ⟨t, 16, 8⟩).1.target.top = t.top + 2) := by
  refine ⟨⟨rfl, rfl, rfl⟩, fun t => ?_, fun t => ?_⟩ <;> norm_num [fallRender, move]

/-- Witness for C8's theorem at a concrete animation state. -/
theorem fallAnimation_vertical_rate_witness :
    (fallRender ⟨⟨0, 7⟩, 16, 16⟩).1.target.top = 0 + 16 / 16 ∧
    (fallRender ⟨⟨0, 7⟩, 16, 16⟩).1.target.left = 7 ∧
    (fallRender ⟨⟨0, 7⟩, 16, 16⟩).2 = true :=
  (fallAnimation_vertical_rate ⟨⟨0, 7⟩, 16, 16⟩ (by norm_num)).1

lemma radRun_not_mem (w tg : Nat) (st : RADRun) (ts : List ℤ)
    (hw : w ∉ st.scene) :
    radRun w tg st ts = ts.map (fun _ => (none : Option RADEvent)) := by
  induction ts generalizing st with
  | nil => rfl
  | cons t ts ih =>
      simp only [radRun, radTick, if_neg hw, List.map_cons]
      exact congrArg _ (ih st hw)

lemma not_mem_removeObject_self (scene : List Nat) (w tg : Nat) :
    w ∉ removeObject (removeObject scene tg) w := by
  simp [removeObject, List.mem_filter]

lemma radRun_after_first (w tg : Nat) (scene : List Nat) (d t0 : ℤ)
    (hw : w ∈ scene) (ht0 : t0 ≠ 0) (ts : List ℤ) :
    radRun w tg ⟨scene, ⟨some t0, d⟩⟩ ts = radExpected d t0 ts := by
  induction ts generalizing scene with
  | nil => rfl
  | cons t ts ih =>
      by_cases h : t - t0 < d
      · simp only [radRun, radTick, radRender, radFirst, if_pos hw, if_neg ht0,
          if_pos h, radExpected]
        exact congrArg _ (ih scene hw)
      · simp only [radRun, radTick, radRender, radFirst, if_pos hw, if_neg ht0,
          if_neg h, radExpected]
        exact congrArg _
          (radRun_not_mem w tg _ ts (not_mem_removeObject_self scene w tg))

lemma mem_map_none (l : List ℤ) (x : Option RADEvent)
    (hx : x ∈ l.map fun _ => (none : Option RADEvent)) : x = none := by
  rcases List.mem_map.mp hx with ⟨a, _, ha⟩
  exact ha.symm

lemma count_removeBoth_map_none (l : List ℤ) :
    List.count (some RADEvent.removeBoth)
      (l.map fun _ => (none : Option RADEvent)) = 0 := by
  induction l with
  | nil => rfl
  | cons t ts ih => simpa [List.count_cons] using ih

lemma radExpected_count_le (d t0 : ℤ) (l : List ℤ) :
    List.count (some RADEvent.removeBoth) (radExpected d t0 l) ≤ 1 := by
  induction l with
  | nil => simp [radExpected]
  | cons t ts ih =>
      by_cases h : t - t0 < d
      · simpa [radExpected, if_pos h, List.count_cons] using ih
      · simp [radExpected, if_neg h, List.count_cons, count_removeBoth_map_none,
          List.count_replicate]

lemma radExpected_count_eq (d t0 : ℤ) (l : List ℤ)
    (hex : ∃ t ∈ l, d ≤ t - t0) :
    List.count (some RADEvent.removeBoth) (radExpected d t0 l) = 1 := by
  induction l with
  | nil => exact absurd hex (by simp)
  | cons t ts ih =>
      by_cases h : t - t0 < d
      · have hex2 : ∃ u ∈ ts, d ≤ u - t0 := by
          rcases hex with ⟨u, hu, hud⟩
          rcases List.mem_cons.mp hu with rfl | hmem
          · exact absurd h (not_lt.mpr hud)
          · exact ⟨u, hmem, hud⟩
        simpa [radExpected, if_pos h, List.count_cons] using ih hex2
      · simp [radExpected, if_neg h, List.count_cons, count_removeBoth_map_none,
          List.count_replicate]

lemma radExpected_no_render_after_remove (d t0 : ℤ) (l : List ℤ)
    (pre post : List (Option RADEvent))
    (hsplit : radExpected d t0 l = pre ++ some RADEvent.removeBoth :: post) :
    some RADEvent.renderTarget ∉ post := by
  induction l generalizing pre with
  | nil =>
      exact absurd hsplit (by simp [radExpected])
  | cons t ts ih =>
      by_cases h : t - t0 < d
      · rw [radExpected, if_pos h] at hsplit
        match pre, hsplit with
        | [], hs => exact absurd (List.head_eq_of_cons_eq hs) (by simp)
        | p :: pre1, hs =>
            exact ih pre1 (List.tail_eq_of_cons_eq hs)
      · rw [radExpected, if_neg h] at hsplit
        match pre, hsplit with
        | [], hs =>
            intro hmem
            have := mem_map_none ts _ (List.tail_eq_of_cons_eq hs ▸ hmem)
            simp at this
        | p :: pre1, hs =>
            intro _
            have hmem : some RADEvent.removeBoth ∈
                ts.map fun _ => (none : Option RADEvent) := by
              rw [List.tail_eq_of_cons_eq hs]
              exact List.mem_append_right _ (List.mem_cons_self _ _)
            have := mem_map_none ts _ hmem
            simp at this

/-- C7: lifecycle of a Remove-After-Delay wrapper `w` (wrapping target
`tg`) that sits in the owning scene when the ticker starts rendering it
at wall-clock time t0 (a real epoch timestamp, hence nonzero).  The
whole run equals the expected trace (delegate while elapsed < delay,
then a single tick that removes the target and then the wrapper from the
scene, then nothing ever again); each individual render call delegates
iff its elapsed time is strictly below the delay; the removal event
occurs at most once, exactly once as soon as some tick reaches the
delay, and no delegation to the target ever follows it. -/
theorem removeAfterDelay_lifecycle (d t0 : ℤ) (ts : List ℤ)
    (scene : List Nat) (w tg : Nat) (ht0 : t0 ≠ 0) (hw : w ∈ scene) :
    radRun w tg ⟨scene, ⟨none, d⟩⟩ (t0 :: ts) = radExpected d t0 (t0 :: ts) ∧
    (∀ (st : RemoveAfterDelayState) (now : ℤ), st.firstRenderTime = some t0 →
      ((radRender st now).2 = RADEvent.renderTarget ↔
        now - t0 < st.removeDelay)) ∧
    List.count (some RADEvent.removeBoth)
      (radRun w tg ⟨scene, ⟨none, d⟩⟩ (t0 :: ts)) ≤ 1 ∧
    ((∃ t ∈ t0 :: ts, d ≤ t - t0) →
      List.count (some RADEvent.removeBoth)
        (radRun w tg ⟨scene, ⟨none, d⟩⟩ (t0 :: ts)) = 1) ∧
    (∀ pre post,
      radRun w tg ⟨scene, ⟨none, d⟩⟩ (t0 :: ts) =
        pre ++ some RADEvent.removeBoth :: post →
      some RADEvent.renderTarget ∉ post) := by
  have h1 : radRun w tg ⟨scene, ⟨none, d⟩⟩ (t0 :: ts) =
      radExpected d t0 (t0 :: ts) := by
    by_cases h : t0 - t0 < d
    · simp only [radRun, radTick, radRender, radFirst, if_pos hw, if_pos h,
        radExpected]
      exact congrArg _ (radRun_after_first w tg scene d t0 hw ht0 ts)
    · simp only [radRun, radTick, radRender, radFirst, if_pos hw, if_neg h,
        radExpected]
      exact congrArg _
        (radRun_not_mem w tg _ ts (not_mem_removeObject_self scene w tg))
  refine ⟨h1, ?_, ?_, ?_, ?_⟩
  · intro st now hst
    by_cases h : now - t0 < st.removeDelay <;>
      simp [radRender, radFirst, hst, ht0, h]
  · rw [h1]; exact radExpected_count_le d t0 (t0 :: ts)
  · intro hex
    rw [h1]; exact radExpected_count_eq d t0 (t0 :: ts) hex
  · intro pre post hsplit
    exact radExpected_no_render_after_remove d t0 (t0 :: ts) pre post
      (h1 ▸ hsplit)

/-- Witness for C7's theorem on a concrete run: delay 10, first render at
t=1, further ticks at 5, 20, 30 — two delegations, one removal, then
silence. -/
theorem removeAfterDelay_lifecycle_witness :
    radRun 7 3 ⟨[7], ⟨none, 10⟩⟩ [1, 5, 20, 30] =
      radExpected 10 1 [1, 5, 20, 30] :=
  (removeAfterDelay_lifecycle 10 1 [5, 20, 30] [7] 7 3 (by decide)
    (by decide)).1

lemma rangeArray_length (a b : ℤ) :
    (rangeArray a b).length = (b + 1 - a).toNat := by
  rw [rangeArray]
  rw [List.length_map, List.length_range]

lemma sandStreamDelaysAux_get (partsDelay : ℚ) (l : List ℤ) (acc : ℚ)
    (rs : Nat → ℚ) (i0 j : ℕ) (hj : j < l.length) :
    (sandStreamDelaysAux partsDelay l acc ⟨rs, i0⟩).get? j =
      some (acc + j * partsDelay + (0 + rs (i0 + j) * partsDelay)) := by
  induction l generalizing acc i0 j with
  | nil => simp at hj
  | cons t ts ih =>
      cases j with
      | zero =>
          simp [sandStreamDelaysAux, randomNumberValue, randomComputeValue,
            nextDraw]
      | succ j =>
          have hj2 : j < ts.length := by simpa using hj
          have step := ih (acc + partsDelay) (i0 + 1) j hj2
          have hidx : i0 + 1 + j = i0 + (j + 1) := by omega
          simp only [sandStreamDelaysAux, randomNumberValue,
            randomComputeValue, nextDraw, List.get?_cons_succ]
          rw [step, hidx]
          congr 1
          push_cast
          ring

/-- C9: within one stream, the k-th particle's delay node evaluates to
the base `(k-1) * partsDelay` plus an independent jitter
`rs (k-1) * partsDelay` lying in [0, partsDelay), and the value handed
to the timer is this amount multiplied by 10; for partsDelay = 30 the
5th particle's base delay is 120. -/
theorem sandStream_staggered_delays (parts : ℤ) (partsDelay : ℚ)
    (rs : Nat → ℚ) (k : ℕ) (hk1 : 1 ≤ k) (hkN : (k : ℤ) ≤ parts)
    (hrs : ∀ i, 0 ≤ rs i ∧ rs i < 1) (hP : 0 < partsDelay) :
    (sandStreamScheduledDelays parts partsDelay ⟨rs, 0⟩).get? (k - 1) =
      some ((((k : ℚ) - 1) * partsDelay + (0 + rs (k - 1) * partsDelay)) * 10) ∧
    0 ≤ rs (k - 1) * partsDelay ∧ rs (k - 1) * partsDelay < partsDelay ∧
    (k = 5 → partsDelay = 30 → ((k : ℚ) - 1) * partsDelay = 120) := by
  have hlen : k - 1 < (rangeArray 1 parts).length := by
    rw [rangeArray_length]
    omega
  have hget := sandStreamDelaysAux_get partsDelay (rangeArray 1 parts) 0 rs 0
    (k - 1) hlen
  refine ⟨?_, mul_nonneg (hrs (k - 1)).1 hP.le, ?_, ?_⟩
  · rw [sandStreamScheduledDelays, List.get?_map, hget]
    have hcast : ((k - 1 : ℕ) : ℚ) = (k : ℚ) - 1 := by
      push_cast [hk1]
      ring
    simp only [Option.map_some', Nat.zero_add, Option.some.injEq]
    rw [hcast]
    ring
  · calc rs (k - 1) * partsDelay < 1 * partsDelay :=
          mul_lt_mul_of_pos_right (hrs (k - 1)).2 hP
      _ = partsDelay := one_mul _
  · intro hk5 hP30
    subst hk5 hP30
    norm_num

/-- Witness for C9's theorem: 5 particles, partsDelay 30, every RNG draw
1/2 — the 5th particle's scheduled delay is (120 + 15) * 10. -/
theorem sandStream_staggered_delays_witness :
    (sandStreamScheduledDelays 5 30 ⟨fun _ => 1/2, 0⟩).get? 4 =
      some ((((5 : ℚ) - 1) * 30 + (0 + (1/2) * 30)) * 10) :=
  (sandStream_staggered_delays 5 30 (fun _ => 1/2) 5 (by norm_num)
    (by norm_num) (fun _ => ⟨by norm_num, by norm_num⟩) (by norm_num)).1

/-- C10: every BinaryOperation subclass constructor coerces both operands
to plain numbers, so a nested random-in-range operand draws exactly once
at construction (the RNG advances by the number of random operands);
constructing `Sum.of(nextDelay, RandomNumber.of(0, P))` stores the plain
numbers `nextDelay` and `0 + r_i * P`, its value is
`nextDelay + (0 + r_i * P)`, and reading the node again consumes no
randomness and always returns that same number. -/
theorem binaryOperation_constructor_coerces_once (x y : NumOperand)
    (rs : Nat → ℚ) (i : ℕ) (d P : ℚ) :
    ((mkBinaryOperation x y ⟨rs, i⟩).2).idx = i + drawCount x + drawCount y ∧
    (mkBinaryOperation (NumOperand.num d) (NumOperand.randNode 0 P)
        ⟨rs, i⟩).1 = ⟨d, 0 + rs i * P⟩ ∧
    sumComputeValue (mkBinaryOperation (NumOperand.num d)
        (NumOperand.randNode 0 P) ⟨rs, i⟩).1 = d + (0 + rs i * P) ∧
    ∀ s1 s2 : RandStream,
      (sumValueOf (mkBinaryOperation (NumOperand.num d)
          (NumOperand.randNode 0 P) ⟨rs, i⟩).1 s1).1 =
        (sumValueOf (mkBinaryOperation (NumOperand.num d)
          (NumOperand.randNode 0 P) ⟨rs, i⟩).1 s2).1 ∧
      (sumValueOf (mkBinaryOperation (NumOperand.num d)
          (NumOperand.randNode 0 P) ⟨rs, i⟩).1 s1).2 = s1 := by
  refine ⟨?_, rfl, rfl, fun s1 s2 => ⟨rfl, rfl⟩⟩
  cases x <;> cases y <;>
    simp [mkBinaryOperation, toNumber, drawCount, randomNumberValue,
      randomComputeValue, nextDraw]

end ScratchCard
